import Mathlib

/-!
Verification of the anago preprocessing core (preprocess.py): the static
vocabulary builder (StaticPreprocessor) and the dynamic batch padder
(DynamicPreprocessor), shallowly embedded as executable Lean functions.
Python dicts are modelled as association lists with Python's update-in-place
assignment semantics, raised exceptions as Option results, and numpy arrays
as nested lists.
-/

/-- Reserved padding token of the source module. -/
def PAD : String := "<PAD>"

/-- Reserved unknown token of the source module. -/
def UNK : String := "<UNK>"

/-- Association-list model of a Python dict lookup: value of the matching key,
none when absent (a KeyError site in Python when indexed directly). -/
def assocGet? {α β : Type} [BEq α] (d : List (α × β)) (k : α) : Option β :=
  (d.find? (fun p => p.1 == k)).map (fun p => p.2)

/-- Python dict assignment d[k] = v: update the value in place when the key
exists (keeping its position, as Python dicts do), otherwise append. -/
def assocInsert {α β : Type} [BEq α] (d : List (α × β)) (k : α) (v : β) :
    List (α × β) :=
  if d.any (fun p => p.1 == k) then
    d.map (fun p => if p.1 == k then (k, v) else p)
  else d ++ [(k, v)]

/-- Models Python str.lower; ASCII case folding covers every input exercised
by the claims. -/
def strLower (s : String) : String := String.mk (s.data.map Char.toLower)

/-- The digit characters replaced by normalize_number: ASCII digits plus the
full-width digit block, exactly the character class of the source regex. -/
def digitChars : List Char := "0123456789０１２３４５６７８９".data

/-- Source normalize_number: substitute the literal digit 0 for every digit. -/
def normalize_number (text : String) : String :=
  String.mk (text.data.map (fun c => if digitChars.contains c then '0' else c))

/-- State of the source StaticPreprocessor: the configuration flags fixed at
construction and the three vocabulary mappings. -/
structure StaticPreprocessor where
  lowercase : Bool
  num_norm : Bool
  char_feature : Bool
  vocab_init : List String
  word_dic : List (String × Nat)
  char_dic : List (String × Nat)
  label_dic : List (String × Nat)

/-- Source constructor: the three mappings start from the reserved entries
PAD and UNK for words and characters, PAD alone for labels. -/
def StaticPreprocessor.create (lowercase num_norm char_feature : Bool)
    (vocab_init : List String) : StaticPreprocessor :=
  { lowercase := lowercase, num_norm := num_norm, char_feature := char_feature,
    vocab_init := vocab_init,
    word_dic := [(PAD, 0), (UNK, 1)],
    char_dic := [(PAD, 0), (UNK, 1)],
    label_dic := [(PAD, 0)] }

/-- Lowercase then number-normalize, the word normalization both fit and
transform apply before any word_dic access. -/
def StaticPreprocessor.normWord (p : StaticPreprocessor) (w : String) : String :=
  let w1 := if p.lowercase then strLower w else w
  if p.num_norm then normalize_number w1 else w1

/-- First-occurrence deduplication, standing in for Python set iteration in
fit; the iteration order of the source sets is implementation-defined and the
spec documents it as such, so one realizable order is fixed here. -/
def dedupFirst (l : List String) : List String :=
  l.foldl (fun acc x => if acc.contains x then acc else acc ++ [x]) []

/-- Body of the fit loop for one distinct word: each unseen character receives
the next character id (guarded by a presence check in the source), then the
normalized word is assigned len(word_dic) unconditionally, exactly as the
source assignment word_dic of w = len(word_dic) does. -/
def StaticPreprocessor.fitWord (p : StaticPreprocessor) (w : String) :
    StaticPreprocessor :=
  let newChars := w.data.foldl
    (fun d c => if (assocGet? d c.toString).isSome then d
                else assocInsert d c.toString d.length) p.char_dic
  let p1 := if p.char_feature then { p with char_dic := newChars } else p
  { p1 with word_dic := assocInsert p1.word_dic (p1.normWord w) p1.word_dic.length }

/-- Source fit: one pass over the distinct words (corpus union vocab_init)
building char_dic and word_dic, then one pass over the distinct labels
assigning label_dic entries unconditionally. -/
def StaticPreprocessor.fit (p : StaticPreprocessor) (X : List (List String))
    (y : List (List String)) : StaticPreprocessor :=
  let p1 := (dedupFirst (X.flatten ++ p.vocab_init)).foldl StaticPreprocessor.fitWord p
  let newLabels := (dedupFirst y.flatten).foldl
    (fun d t => assocInsert d t d.length) p1.label_dic
  { p1 with label_dic := newLabels }

/-- Word encoding in transform: dict get with default word_dic at UNK; the UNK
key is present in every reachable state, so the final default 0 of the model
is never taken. -/
def StaticPreprocessor.wordId (p : StaticPreprocessor) (w : String) : Nat :=
  (assocGet? p.word_dic (p.normWord w)).getD ((assocGet? p.word_dic UNK).getD 0)

/-- Source _get_char_ids: per-character lookup with the UNK fallback. -/
def StaticPreprocessor.charIds (p : StaticPreprocessor) (w : String) : List Nat :=
  w.data.map (fun c =>
    (assocGet? p.char_dic c.toString).getD ((assocGet? p.char_dic UNK).getD 0))

/-- Sequence a list of optional results: none as soon as any entry is none,
modelling a KeyError escaping the surrounding comprehension. -/
def optList {α : Type} : List (Option α) → Option (List α)
  | [] => some []
  | none :: _ => none
  | some a :: rest => (optList rest).map (fun l => a :: l)

/-- Label encoding in transform: direct label_dic indexing with no fallback. -/
def StaticPreprocessor.encodeLabels (p : StaticPreprocessor)
    (ys : List (List String)) : Option (List (List Nat)) :=
  optList (ys.map (fun sent => optList (sent.map (fun t => assocGet? p.label_dic t))))

/-- Batch arrays exchanged between the two preprocessors: a 2D word-id array
or a 3D char-id array, as the untyped Python lists hold either. -/
inductive NDArray where
  | seq2 : List (List Nat) → NDArray
  | seq3 : List (List (List Nat)) → NDArray
deriving DecidableEq

/-- Source StaticPreprocessor.transform: word ids (UNK fallback), char ids
when char_feature is set, and label ids when a label corpus is given, where a
missing label raises (modelled as none). -/
def StaticPreprocessor.transform (p : StaticPreprocessor) (X : List (List String))
    (y : Option (List (List String))) :
    Option (List NDArray × Option (List (List Nat))) :=
  let words := X.map (fun sent => sent.map p.wordId)
  let chars := X.map (fun sent => sent.map p.charIds)
  let inputs := if p.char_feature then [NDArray.seq2 words, NDArray.seq3 chars]
                else [NDArray.seq2 words]
  match y with
  | none => some (inputs, none)
  | some ys =>
    match p.encodeLabels ys with
    | none => none
    | some ids => some (inputs, some ids)

/-- Source fit_transform: fit then transform on the same corpus. -/
def StaticPreprocessor.fit_transform (p : StaticPreprocessor)
    (X : List (List String)) (y : List (List String)) :
    Option (List NDArray × Option (List (List Nat))) :=
  (p.fit X y).transform X (some y)

/-- The dict comprehension of inverse_transform mapping each (label, id) pair
to (id, label); a later pair with a duplicate id overwrites the earlier one,
as in Python. -/
def id2label (d : List (String × Nat)) : List (Nat × String) :=
  d.foldl (fun acc p => assocInsert acc p.2 p.1) []

/-- Source inverse_transform: id lookups in the inverted label mapping, a
missing id raising (modelled as none). -/
def StaticPreprocessor.inverse_transform (p : StaticPreprocessor)
    (docs : List (List Nat)) : Option (List (List String)) :=
  optList (docs.map (fun doc =>
    optList (doc.map (fun i => assocGet? (id2label p.label_dic) i))))

/-- Longest sequence length of a batch, mirroring the running max loops of
the source and of keras pad_sequences. -/
def maxlenSeq (xs : List (List Nat)) : Nat :=
  xs.foldl (fun m s => max s.length m) 0

/-- Modelled from the spec: keras pad_sequences with post padding (an external
dependency, not part of src/): right-pad every sequence with 0 to the longest
sequence length of the batch. -/
def pad_sequences (xs : List (List Nat)) : List (List Nat) :=
  xs.map (fun s => s ++ List.replicate (maxlenSeq xs - s.length) 0)

/-- Running max of sentence lengths from the source pad_nested_sequences. -/
def maxlenSent (seqs : List (List (List Nat))) : Nat :=
  seqs.foldl (fun m sent => max sent.length m) 0

/-- Running max of word lengths across all words of all sentences, from the
source pad_nested_sequences. -/
def maxlenWord (seqs : List (List (List Nat))) : Nat :=
  seqs.foldl (fun m sent => sent.foldl (fun m2 w => max w.length m2) m) 0

/-- Source pad_nested_sequences: a zero array of shape (batch, max sentence
length, max word length) whose row (i, j) starts with the char ids of word j
of sentence i. -/
def pad_nested_sequences (seqs : List (List (List Nat))) : List (List (List Nat)) :=
  seqs.map (fun sent =>
    (List.range (maxlenSent seqs)).map (fun j =>
      match sent.get? j with
      | some word => word ++ List.replicate (maxlenWord seqs - word.length) 0
      | none => List.replicate (maxlenWord seqs) 0))

/-- One-hot row of width n with the single 1 at index k (for k less than n). -/
def oneHot (n k : Nat) : List Nat :=
  (List.range n).map (fun i => if i = k then 1 else 0)

/-- Modelled from the spec: keras to_categorical (an external dependency):
expand each id of the padded label array to a one-hot vector of width n. -/
def to_categorical (ys : List (List Nat)) (n : Nat) : List (List (List Nat)) :=
  ys.map (fun s => s.map (fun k => oneHot n k))

/-- State of the source DynamicPreprocessor: only the one-hot width. -/
structure DynamicPreprocessor where
  n_labels : Nat

/-- Source DynamicPreprocessor.transform: unpack exactly two arrays, words and
chars — any other shape is the Python unpacking ValueError, modelled as
none — pad both, and pad plus one-hot the labels when given. -/
def DynamicPreprocessor.transform (dp : DynamicPreprocessor) (X : List NDArray)
    (y : Option (List (List Nat))) :
    Option (List NDArray × Option (List (List (List Nat)))) :=
  match X with
  | [NDArray.seq2 words, NDArray.seq3 chars] =>
      some ([NDArray.seq2 (pad_sequences words),
             NDArray.seq3 (pad_nested_sequences chars)],
            y.map (fun ys => to_categorical (pad_sequences ys) dp.n_labels))
  | _ => none

/-- The fitted builder of the number-normalization scenario of the spec. -/
def scenarioFitted : StaticPreprocessor :=
  (StaticPreprocessor.create true true true []).fit
    [["I", "saw", "2", "cats"]] [["O", "O", "O", "O"]]

/-- C1: the claim says a word id, once assigned, never changes within one fit
and that a normalized word gets a fresh id only when unseen. The code assigns
word_dic entries unconditionally: fitting the corpus with the words The, the
and x first gives the normalized word the id 2, then reassigns it id 3 when
the second raw spelling arrives, and then hands the new word x the duplicate
id 3 — the claimed invariant fails on the code. -/
theorem fit_word_id_reassigned :
    assocGet? (((StaticPreprocessor.create true true true []).fitWord "The").word_dic) "the"
      = some 2 ∧
    assocGet? (((StaticPreprocessor.create true true true []).fit
      [["The", "the", "x"]] []).word_dic) "the" = some 3 ∧
    assocGet? (((StaticPreprocessor.create true true true []).fit
      [["The", "the", "x"]] []).word_dic) "x" = some 3 := by
  refine ⟨rfl, rfl, rfl⟩

/-- C2 counterexample: transform on a freshly constructed, never fitted
builder does not raise any error: it succeeds and encodes the unseen corpus
with UNK ids, and inverse_transform likewise succeeds on PAD ids. -/
theorem transform_unfitted_no_error :
    (StaticPreprocessor.create true true true []).transform [["a"]] none
      = some ([NDArray.seq2 [[1]], NDArray.seq3 [[[1]]]], none) ∧
    (StaticPreprocessor.create true true true []).inverse_transform [[0]]
      = some [["<PAD>"]] := by
  refine ⟨rfl, rfl⟩

/-- C2 amended: calling transform or inverse_transform before fit raises no
UnfittedStateError — no such check exists. Transform without labels always
succeeds on an unfitted builder, and inverse_transform succeeds on the PAD id
0 and fails only when an id other than 0 is looked up. -/
theorem unfitted_transform_succeeds (lc nn cf : Bool) (vi : List String)
    (X : List (List String)) :
    (((StaticPreprocessor.create lc nn cf vi).transform X none).isSome = true) ∧
    ((StaticPreprocessor.create lc nn cf vi).inverse_transform [[0]]
      = some [["<PAD>"]]) ∧
    ((StaticPreprocessor.create lc nn cf vi).inverse_transform [[1]] = none) := by
  refine ⟨rfl, rfl, rfl⟩

/-- C4 counterexample: with char_feature unset the static transform emits a
one-element input list holding only the word ids, and the dynamic transform
rejects exactly that shape (the unpacking of two arrays fails) instead of
succeeding on word ids alone. -/
theorem dyn_transform_words_only_fails :
    ((StaticPreprocessor.create true true false []).fit [["a"]] []).transform
      [["a"]] none = some ([NDArray.seq2 [[2]]], none) ∧
    (DynamicPreprocessor.mk 2).transform [NDArray.seq2 [[2]]] none = none := by
  refine ⟨rfl, rfl⟩

/-- C5: the claim says an unseen word always encodes to the UNK id 1. Fitting
a corpus that contains the literal token of the UNK sentinel (with lowercase
off) reassigns the reserved entry to id 2, after which the never-seen word x
encodes to 2, not 1 (characters still fall back to 1). -/
theorem unk_sentinel_overwritten :
    assocGet? (((StaticPreprocessor.create false false true []).fit
      [["<UNK>"]] []).word_dic) "<UNK>" = some 2 ∧
    ((StaticPreprocessor.create false false true []).fit [["<UNK>"]] []).transform
      [["x"]] none = some ([NDArray.seq2 [[2]], NDArray.seq3 [[[1]]]], none) := by
  refine ⟨rfl, rfl⟩

/-- C7: the claim says fit, transform, inverse_transform round-trips every
label corpus exactly. With the label corpus containing the literal PAD
sentinel followed by the label A (processed in that order), fit assigns both
labels the id 1, transform encodes the corpus as 1, 1, and inverse_transform
returns A, A — not the original corpus. -/
theorem label_roundtrip_broken :
    ((StaticPreprocessor.create true true true []).fit [["x", "y"]]
      [["<PAD>", "A"]]).transform [["x", "y"]] (some [["<PAD>", "A"]])
      = some ([NDArray.seq2 [[2, 3]], NDArray.seq3 [[[2], [3]]]], some [[1, 1]]) ∧
    ((StaticPreprocessor.create true true true []).fit [["x", "y"]]
      [["<PAD>", "A"]]).inverse_transform [[1, 1]] = some [["A", "A"]] ∧
    some [["A", "A"]] ≠ some [["<PAD>", "A"]] := by
  refine ⟨rfl, rfl, by decide⟩

/-- C8: fit_transform on a fresh builder is definitionally fit followed by
transform on the same corpus and label corpus with that fresh builder, so the
two produce identical encoded words, chars and label ids. -/
theorem fit_transform_is_fit_then_transform (lc nn cf : Bool) (vi : List String)
    (X y : List (List String)) :
    (StaticPreprocessor.create lc nn cf vi).fit_transform X y
      = ((StaticPreprocessor.create lc nn cf vi).fit X y).transform X (some y) := rfl

/-- C10: fitting on the sentence I saw 2 cats with lowercase and number
normalization gives the word 2 (normalized to 0) the id 4, distinct from the
ids 2, 3, 5 of the digit-free words; transforming I saw 9 dogs maps 9 to that
same id 4 and the unseen word dogs to the UNK id 1. -/
theorem number_normalization_scenario :
    assocGet? scenarioFitted.word_dic "0" = some 4 ∧
    assocGet? scenarioFitted.word_dic "i" = some 2 ∧
    assocGet? scenarioFitted.word_dic "saw" = some 3 ∧
    assocGet? scenarioFitted.word_dic "cats" = some 5 ∧
    assocGet? scenarioFitted.word_dic "dogs" = none ∧
    scenarioFitted.transform [["I", "saw", "9", "dogs"]] none
      = some ([NDArray.seq2 [[2, 3, 4, 1]],
               NDArray.seq3 [[[2], [3, 4, 5], [1], [1, 1, 1, 3]]]], none) := by
  refine ⟨rfl, rfl, rfl, rfl, rfl, rfl⟩

/-- Helper: the initial accumulator bounds a running length-max fold below. -/
lemma le_foldl_maxlen {α : Type} (f : α → Nat) (l : List α) (a : Nat) :
    a ≤ l.foldl (fun m x => max (f x) m) a := by
  induction l generalizing a with
  | nil => exact Nat.le_refl a
  | cons x l ih =>
    simp only [List.foldl_cons]
    exact Nat.le_trans (Nat.le_max_right (f x) a) (ih (max (f x) a))

/-- Helper: a running length-max fold bounds every member's measure. -/
lemma foldl_maxlen_of_mem {α : Type} (f : α → Nat) (l : List α) (a : Nat) (x : α)
    (hx : x ∈ l) : f x ≤ l.foldl (fun m x => max (f x) m) a := by
  induction hx generalizing a with
  | head as =>
    simp only [List.foldl_cons]
    exact Nat.le_trans (Nat.le_max_left (f x) a) (le_foldl_maxlen f as (max (f x) a))
  | tail b hmem ih =>
    simp only [List.foldl_cons]
    exact ih _

/-- Helper: the initial accumulator bounds the nested word-length fold below. -/
lemma le_foldl_maxword (seqs : List (List (List Nat))) (a : Nat) :
    a ≤ seqs.foldl (fun m sent => sent.foldl (fun m2 w => max w.length m2) m) a := by
  induction seqs generalizing a with
  | nil => exact Nat.le_refl a
  | cons s l ih =>
    simp only [List.foldl_cons]
    exact Nat.le_trans (le_foldl_maxlen List.length s a) (ih _)

/-- Helper: the nested word-length fold bounds every word of every sentence. -/
lemma word_le_foldl_maxword (seqs : List (List (List Nat))) (a : Nat)
    (sent : List (List Nat)) (word : List Nat) (hs : sent ∈ seqs) (hw : word ∈ sent) :
    word.length ≤ seqs.foldl (fun m s => s.foldl (fun m2 w => max w.length m2) m) a := by
  induction hs generalizing a with
  | head as =>
    simp only [List.foldl_cons]
    exact Nat.le_trans (foldl_maxlen_of_mem List.length sent a word hw)
      (le_foldl_maxword as _)
  | tail b hmem ih =>
    simp only [List.foldl_cons]
    exact ih _

/-- Every sentence of a batch is at most maxlenSent long. -/
lemma length_le_maxlenSent (seqs : List (List (List Nat))) (sent : List (List Nat))
    (h : sent ∈ seqs) : sent.length ≤ maxlenSent seqs :=
  foldl_maxlen_of_mem List.length seqs 0 sent h

/-- Every word of every sentence of a batch is at most maxlenWord long. -/
lemma length_le_maxlenWord (seqs : List (List (List Nat))) (sent : List (List Nat))
    (word : List Nat) (hs : sent ∈ seqs) (hw : word ∈ sent) :
    word.length ≤ maxlenWord seqs :=
  word_le_foldl_maxword seqs 0 sent word hs hw

/-- Helper: getD through a map, at an in-range index. -/
lemma getD_map_lt {α β : Type} (f : α → β) (xs : List α) (i : Nat)
    (hi : i < xs.length) (d : β) (d0 : α) :
    (xs.map f).getD i d = f (xs.getD i d0) := by
  induction xs generalizing i with
  | nil => cases hi
  | cons x l ih =>
    cases i with
    | zero => rfl
    | succ m =>
      simp only [List.map_cons, List.getD_cons_succ]
      exact ih m (Nat.lt_of_succ_lt_succ hi)

/-- Helper: getD at an in-range index is a member. -/
lemma getD_mem {α : Type} (xs : List α) (i : Nat) (d : α) (hi : i < xs.length) :
    xs.getD i d ∈ xs := by
  rw [List.getD_eq_getD_get? xs d i, List.get?_eq_get hi]
  simp only [Option.getD_some]
  exact List.get_mem xs i hi

/-- Helper: getD through a map over a range, at an in-range index. -/
lemma getD_range_map {β : Type} (n : Nat) (g : Nat → β) (j : Nat) (hj : j < n)
    (d : β) : ((List.range n).map g).getD j d = g j := by
  have h1 : ((List.range n).map g).getD j d = g ((List.range n).getD j 0) :=
    getD_map_lt g (List.range n) j (by simpa using hj) d 0
  rw [h1]
  congr 1
  rw [List.getD_eq_getD_get? _ 0 j, List.get?_range hj]
  rfl

/-- Helper: every position of a zero replicate reads 0 under getD. -/
lemma getD_replicate_zero (n m : Nat) : (List.replicate n (0 : Nat)).getD m 0 = 0 := by
  induction n generalizing m with
  | zero => cases m <;> rfl
  | succ k ih =>
    cases m with
    | zero => rfl
    | succ m => simpa using ih m

/-- Row i of the nested padding output, written as a map over column indices. -/
lemma pad_nested_row (seqs : List (List (List Nat))) (i : Nat) (hi : i < seqs.length) :
    (pad_nested_sequences seqs).getD i [] =
      (List.range (maxlenSent seqs)).map (fun j =>
        match (seqs.getD i []).get? j with
        | some word => word ++ List.replicate (maxlenWord seqs - word.length) 0
        | none => List.replicate (maxlenWord seqs) 0) := by
  unfold pad_nested_sequences
  exact getD_map_lt _ seqs i hi [] []

/-- Cell (i, j) of the nested padding output when sentence i has a word j. -/
lemma pad_nested_cell_some (seqs : List (List (List Nat))) (i j : Nat)
    (word : List Nat) (hi : i < seqs.length) (hj : j < maxlenSent seqs)
    (h : (seqs.getD i []).get? j = some word) :
    ((pad_nested_sequences seqs).getD i []).getD j [] =
      word ++ List.replicate (maxlenWord seqs - word.length) 0 := by
  rw [pad_nested_row seqs i hi, getD_range_map (maxlenSent seqs) _ j hj []]
  simp only [h]

/-- Cell (i, j) of the nested padding output beyond the end of sentence i. -/
lemma pad_nested_cell_none (seqs : List (List (List Nat))) (i j : Nat)
    (hi : i < seqs.length) (hj : j < maxlenSent seqs)
    (h : (seqs.getD i []).get? j = none) :
    ((pad_nested_sequences seqs).getD i []).getD j [] =
      List.replicate (maxlenWord seqs) 0 := by
  rw [pad_nested_row seqs i hi, getD_range_map (maxlenSent seqs) _ j hj []]
  simp only [h]

/-- C3: pad_nested_sequences returns a batch-sized array whose rows all have
maxlenSent columns and whose cells all have maxlenWord character slots, where
position (i, j, k) holds character k of word j of sentence i when that word
position exists and 0 everywhere else — including whole sentence slots past a
sentence's length and character slots past a word's length. -/
theorem pad_nested_sequences_spec (seqs : List (List (List Nat))) (i j k : Nat)
    (hi : i < seqs.length) (hj : j < maxlenSent seqs) (hk : k < maxlenWord seqs) :
    (pad_nested_sequences seqs).length = seqs.length ∧
    ((pad_nested_sequences seqs).getD i []).length = maxlenSent seqs ∧
    (((pad_nested_sequences seqs).getD i []).getD j []).length = maxlenWord seqs ∧
    (((pad_nested_sequences seqs).getD i []).getD j []).getD k 0 =
      (if j < (seqs.getD i []).length ∧ k < ((seqs.getD i []).getD j []).length
       then ((seqs.getD i []).getD j []).getD k 0 else 0) := by
  refine ⟨by simp [pad_nested_sequences], ?_, ?_, ?_⟩
  · rw [pad_nested_row seqs i hi]
    simp
  · by_cases hjlen : j < (seqs.getD i []).length
    · obtain ⟨word, hword⟩ : ∃ w, (seqs.getD i []).get? j = some w := by
        rw [List.get?_eq_get hjlen]
        exact ⟨_, rfl⟩
      rw [pad_nested_cell_some seqs i j word hi hj hword]
      have hmem : word ∈ seqs.getD i [] := List.get?_mem hword
      have hle : word.length ≤ maxlenWord seqs :=
        length_le_maxlenWord seqs _ word (getD_mem seqs i [] hi) hmem
      simp [Nat.add_sub_cancel' hle]
    · rw [pad_nested_cell_none seqs i j hi hj
        (List.get?_eq_none.mpr (Nat.le_of_not_lt hjlen))]
      simp
  · by_cases hjlen : j < (seqs.getD i []).length
    · obtain ⟨word, hword⟩ : ∃ w, (seqs.getD i []).get? j = some w := by
        rw [List.get?_eq_get hjlen]
        exact ⟨_, rfl⟩
      rw [pad_nested_cell_some seqs i j word hi hj hword]
      have hwd : (seqs.getD i []).getD j [] = word := by
        rw [List.getD_eq_getD_get? _ [] j, hword]
        rfl
      rw [hwd]
      by_cases hk2 : k < word.length
      · rw [List.getD_append _ _ 0 k hk2, if_pos ⟨hjlen, hk2⟩]
      · rw [List.getD_append_right _ _ 0 k (Nat.le_of_not_lt hk2), getD_replicate_zero,
          if_neg (fun hc => hk2 hc.2)]
    · rw [pad_nested_cell_none seqs i j hi hj
        (List.get?_eq_none.mpr (Nat.le_of_not_lt hjlen)),
        getD_replicate_zero, if_neg (fun hc => hjlen hc.1)]

/-- C3 witness: the nested-padding theorem applied to the spec scenario batch
of two sentences with global maximum word length 3. -/
theorem pad_nested_sequences_spec_witness :
    (pad_nested_sequences [[[1, 2], [3]], [[4, 5, 6]]]).length = 2 :=
  (pad_nested_sequences_spec [[[1, 2], [3]], [[4, 5, 6]]] 1 1 2
    (by decide) (by decide) (by decide)).1

/-- Helper: sequencing optional lookups succeeds exactly when each one does. -/
lemma optList_isSome_iff {α : Type} (l : List (Option α)) :
    (optList l).isSome = true ↔ ∀ x ∈ l, x.isSome = true := by
  induction l with
  | nil => simp [optList]
  | cons x l ih =>
    cases x with
    | none => simp [optList]
    | some a => simp [optList, Option.isSome_map', ih]

/-- Label encoding succeeds exactly when every label of the corpus has an
entry in the label vocabulary. -/
lemma encodeLabels_isSome_iff (p : StaticPreprocessor) (ys : List (List String)) :
    (p.encodeLabels ys).isSome = true ↔
      ∀ sent ∈ ys, ∀ t ∈ sent, (assocGet? p.label_dic t).isSome = true := by
  unfold StaticPreprocessor.encodeLabels
  rw [optList_isSome_iff]
  constructor
  · intro h sent hs t ht
    have h2 := h _ (List.mem_map_of_mem _ hs)
    rw [optList_isSome_iff] at h2
    exact h2 _ (List.mem_map_of_mem _ ht)
  · intro h x hx
    obtain ⟨sent, hs, rfl⟩ := List.mem_map.mp hx
    rw [optList_isSome_iff]
    intro o ho
    obtain ⟨t, ht, rfl⟩ := List.mem_map.mp ho
    exact h sent hs t ht

/-- C6: transform with a label corpus raises (returns none) whenever some
label has no entry in the label vocabulary — no fallback id is substituted —
and does not raise when every label is covered. -/
theorem label_lookup_strict (p : StaticPreprocessor) (X : List (List String))
    (ys : List (List String)) :
    ((∃ sent ∈ ys, ∃ t ∈ sent, assocGet? p.label_dic t = none) →
      p.transform X (some ys) = none) ∧
    ((∀ sent ∈ ys, ∀ t ∈ sent, (assocGet? p.label_dic t).isSome = true) →
      (p.transform X (some ys)).isSome = true) := by
  constructor
  · rintro ⟨sent, hs, t, ht, hnone⟩
    have h1 : ¬ (p.encodeLabels ys).isSome = true := by
      rw [encodeLabels_isSome_iff]
      intro hall
      have h3 := hall sent hs t ht
      rw [hnone] at h3
      exact absurd h3 (by decide)
    have h2 : p.encodeLabels ys = none := by
      cases henc : p.encodeLabels ys with
      | none => rfl
      | some v => rw [henc] at h1; exact absurd rfl h1
    simp [StaticPreprocessor.transform, h2]
  · intro hall
    rw [← encodeLabels_isSome_iff p ys] at hall
    cases henc : p.encodeLabels ys with
    | none => rw [henc] at hall; exact absurd hall (by decide)
    | some v => simp [StaticPreprocessor.transform, henc]

/-- C6 witness: a builder fitted on the single label O rejects the unknown
label B and accepts the covered label corpus of O alone. -/
theorem label_lookup_strict_witness :
    (((StaticPreprocessor.create true true true []).fit [["a"]] [["O"]]).transform
      [["a"]] (some [["B"]]) = none) ∧
    ((((StaticPreprocessor.create true true true []).fit [["a"]] [["O"]]).transform
      [["a"]] (some [["O"]])).isSome = true) :=
  ⟨(label_lookup_strict _ [["a"]] [["B"]]).1 (by decide),
   (label_lookup_strict _ [["a"]] [["O"]]).2 (by decide)⟩

/-- C4 amended: the dynamic transform requires both the word-id array and the
nested char-id array — a one-element input (exactly what the static transform
emits when char_feature is unset) fails the unpacking instead of succeeding —
and when both are present the word-id sequences are right-padded with 0 to
the longest-sentence length. -/
theorem dyn_transform_requires_chars (n : Nat) (words : List (List Nat))
    (chars : List (List (List Nat))) (y : Option (List (List Nat))) :
    (DynamicPreprocessor.mk n).transform [NDArray.seq2 words] y = none ∧
    (DynamicPreprocessor.mk n).transform [NDArray.seq2 words, NDArray.seq3 chars] y =
      some ([NDArray.seq2 (pad_sequences words),
             NDArray.seq3 (pad_nested_sequences chars)],
            y.map (fun ys => to_categorical (pad_sequences ys) n)) ∧
    ∀ i, i < words.length →
      (pad_sequences words).getD i [] =
        (words.getD i []) ++ List.replicate (maxlenSeq words - (words.getD i []).length) 0 := by
  refine ⟨rfl, rfl, ?_⟩
  intro i hi
  unfold pad_sequences
  exact getD_map_lt _ words i hi [] []

/-- C4 witness: the word-padding scenario of the spec, padding the second of
the sentences 5 6 and 7 to 7 0. -/
theorem dyn_transform_requires_chars_witness :
    (pad_sequences [[5, 6], [7]]).getD 1 [] = [7, 0] :=
  (dyn_transform_requires_chars 2 [[5, 6], [7]] [] none).2.2 1 (by decide)

/-- The padded word array keeps the batch size. -/
lemma pad_sequences_length (xs : List (List Nat)) :
    (pad_sequences xs).length = xs.length := by
  simp [pad_sequences]

/-- Row i of pad_sequences is the original row extended by zeros. -/
lemma pad_sequences_row (xs : List (List Nat)) (i : Nat) (hi : i < xs.length) :
    (pad_sequences xs).getD i [] =
      (xs.getD i []) ++ List.replicate (maxlenSeq xs - (xs.getD i []).length) 0 := by
  unfold pad_sequences
  exact getD_map_lt _ xs i hi [] []

/-- Every padded row has the longest-sentence length. -/
lemma pad_sequences_row_length (xs : List (List Nat)) (i : Nat) (hi : i < xs.length) :
    ((pad_sequences xs).getD i []).length = maxlenSeq xs := by
  rw [pad_sequences_row xs i hi]
  have hle : (xs.getD i []).length ≤ maxlenSeq xs :=
    foldl_maxlen_of_mem List.length xs 0 _ (getD_mem xs i [] hi)
  simp only [List.length_append, List.length_replicate]
  omega

/-- Entry (i, j) of pad_sequences agrees with the original entry, reading 0
both at padded positions and beyond. -/
lemma pad_sequences_entry (xs : List (List Nat)) (i j : Nat) (hi : i < xs.length) :
    ((pad_sequences xs).getD i []).getD j 0 = (xs.getD i []).getD j 0 := by
  rw [pad_sequences_row xs i hi]
  by_cases hj : j < (xs.getD i []).length
  · rw [List.getD_append _ _ 0 j hj]
  · rw [List.getD_append_right _ _ 0 j (Nat.le_of_not_lt hj), getD_replicate_zero,
      List.getD_eq_default _ 0 (Nat.le_of_not_lt hj)]

/-- A one-hot row has the configured width. -/
lemma oneHot_length (n k : Nat) : (oneHot n k).length = n := by
  simp [oneHot]

/-- Reading a one-hot row at an in-range position. -/
lemma oneHot_getD (n k m : Nat) (hm : m < n) :
    (oneHot n k).getD m 0 = if m = k then 1 else 0 := by
  unfold oneHot
  exact getD_range_map n _ m hm 0

/-- Peeling the last position off a one-hot row. -/
lemma oneHot_split (n k : Nat) :
    oneHot (n + 1) k = oneHot n k ++ [if n = k then 1 else 0] := by
  unfold oneHot
  rw [List.range_succ, List.map_append]
  rfl

/-- A one-hot row whose hot index lies outside the width holds no 1 at all. -/
lemma oneHot_count_zero (n k : Nat) (hk : n ≤ k) : (oneHot n k).count 1 = 0 := by
  rw [List.count_eq_zero]
  intro hmem
  obtain ⟨i, hi, hfi⟩ := List.mem_map.mp hmem
  have hlt : i < n := List.mem_range.mp hi
  by_cases h : i = k
  · subst h
    exact absurd hk (Nat.not_le_of_lt hlt)
  · rw [if_neg h] at hfi
    exact absurd hfi (by decide)

/-- A one-hot row with an in-range hot index holds exactly one 1. -/
lemma oneHot_count_one (n k : Nat) (hk : k < n) : (oneHot n k).count 1 = 1 := by
  induction n with
  | zero => cases hk
  | succ m ih =>
    rw [oneHot_split, List.count_append]
    by_cases h : k = m
    · subst h
      rw [oneHot_count_zero k k (Nat.le_refl k)]
      simp
    · have hk2 : k < m := Nat.lt_of_le_of_ne (Nat.lt_succ_iff.mp hk) h
      rw [ih hk2]
      have hz : (if m = k then (1 : Nat) else 0) = 0 := if_neg (fun hc => h hc.symm)
      rw [hz]
      simp

/-- The one-hot row of the padding id 0 is a leading 1 followed by zeros. -/
lemma oneHot_zero (n : Nat) (h0 : 0 < n) :
    oneHot n 0 = 1 :: List.replicate (n - 1) 0 := by
  cases n with
  | zero => cases h0
  | succ m =>
    unfold oneHot
    rw [List.range_succ_eq_map, List.map_cons, List.map_map]
    have h1 : ((fun i => if i = 0 then (1 : Nat) else 0) ∘ Nat.succ)
        = (fun _ : Nat => (0 : Nat)) := by
      funext i
      simp
    rw [h1]
    have h2 : (List.range m).map (fun _ : Nat => (0 : Nat)) = List.replicate m 0 := by
      simp [List.map_const]
    rw [h2]
    simp

/-- C9: with label-id sequences supplied, the dynamic transform emits the
label tensor obtained by right-padding the label ids with 0 to the
longest-sentence length and one-hot expanding each id to width n_labels; every
emitted vector has width n_labels and exactly one 1, the 1 sits at the
original id and every other in-range position is 0, and padded positions
expand to the vector 1 followed by zeros. -/
theorem label_onehot_spec (n : Nat) (words : List (List Nat))
    (chars : List (List (List Nat))) (ys : List (List Nat))
    (h0 : 0 < n) (hall : ∀ s ∈ ys, ∀ k ∈ s, k < n) :
    ((DynamicPreprocessor.mk n).transform [NDArray.seq2 words, NDArray.seq3 chars]
        (some ys) =
      some ([NDArray.seq2 (pad_sequences words),
             NDArray.seq3 (pad_nested_sequences chars)],
            some (to_categorical (pad_sequences ys) n))) ∧
    (∀ i j, i < ys.length → j < maxlenSeq ys →
      ((to_categorical (pad_sequences ys) n).getD i []).getD j [] =
        oneHot n ((ys.getD i []).getD j 0)) ∧
    (∀ i j, i < ys.length → j < maxlenSeq ys →
      ((((to_categorical (pad_sequences ys) n).getD i []).getD j []).length = n ∧
       (((to_categorical (pad_sequences ys) n).getD i []).getD j []).count 1 = 1)) ∧
    (∀ k, k < n → (oneHot n k).getD k 0 = 1 ∧
       ∀ m, m < n → m ≠ k → (oneHot n k).getD m 0 = 0) ∧
    (∀ i j, i < ys.length → (ys.getD i []).length ≤ j → j < maxlenSeq ys →
      ((to_categorical (pad_sequences ys) n).getD i []).getD j [] =
        1 :: List.replicate (n - 1) 0) := by
  have hrow : ∀ i, i < ys.length →
      (to_categorical (pad_sequences ys) n).getD i [] =
        ((pad_sequences ys).getD i []).map (fun k => oneHot n k) := by
    intro i hi
    unfold to_categorical
    refine getD_map_lt _ (pad_sequences ys) i ?_ [] []
    rw [pad_sequences_length]
    exact hi
  have hentry : ∀ i j, i < ys.length → j < maxlenSeq ys →
      ((to_categorical (pad_sequences ys) n).getD i []).getD j [] =
        oneHot n ((ys.getD i []).getD j 0) := by
    intro i j hi hj
    rw [hrow i hi]
    have hjlen : j < ((pad_sequences ys).getD i []).length := by
      rw [pad_sequences_row_length ys i hi]
      exact hj
    rw [getD_map_lt _ ((pad_sequences ys).getD i []) j hjlen [] 0,
      pad_sequences_entry ys i j hi]
  have hidlt : ∀ i j, i < ys.length → (ys.getD i []).getD j 0 < n := by
    intro i j hi
    by_cases hjl : j < (ys.getD i []).length
    · exact hall _ (getD_mem ys i [] hi) _ (getD_mem _ j 0 hjl)
    · rw [List.getD_eq_default _ 0 (Nat.le_of_not_lt hjl)]
      exact h0
  refine ⟨rfl, hentry, ?_, ?_, ?_⟩
  · intro i j hi hj
    rw [hentry i j hi hj]
    exact ⟨oneHot_length n _, oneHot_count_one n _ (hidlt i j hi)⟩
  · intro k hkn
    refine ⟨?_, ?_⟩
    · rw [oneHot_getD n k k hkn]
      simp
    · intro m hm hne
      rw [oneHot_getD n k m hm]
      exact if_neg hne
  · intro i j hi hjl hj
    rw [hentry i j hi hj, List.getD_eq_default _ 0 hjl]
    exact oneHot_zero n h0

/-- C9 witness: the theorem applied to a concrete batch of one sentence with
label ids 2 and 1 and width 3. -/
theorem label_onehot_spec_witness :
    (DynamicPreprocessor.mk 3).transform [NDArray.seq2 [[2]], NDArray.seq3 [[[1]]]]
        (some [[2, 1]]) =
      some ([NDArray.seq2 (pad_sequences [[2]]),
             NDArray.seq3 (pad_nested_sequences [[[1]]])],
            some (to_categorical (pad_sequences [[2, 1]]) 3)) :=
  (label_onehot_spec 3 [[2]] [[[1]]] [[2, 1]] (by decide) (by decide)).1
